import Mathlib

/-!
# Employee Tracking App — verification of the aggregation core

Shallow embedding of `src/employee_tracking_app.py`: the duration parser
`time_to_minutes`, the normalized employee table, and the six report
aggregations (weekly, monthly, overall, attendance, buffer, video).

Conventions of the embedding:
* pandas numeric cells are modelled as `ℚ`;
* a pandas `DataFrame` is a list of rows (a structure per table shape),
  plus, for the employee table, the list of optional column names present;
* `df.groupby(keys).agg(...).reset_index()` with the default `sort=True`
  is modelled by `groupAgg`: collect the distinct keys, sort them
  ascending (lexicographically for tuple keys, as pandas sorts a
  MultiIndex), and aggregate the rows of each key group;
* Python `int(str)` is modelled by `pyInt` (ASCII whitespace stripping,
  optional sign, digits with single underscores in between);
* Python `str.split(sep)` for the one-character separator is modelled by
  `splitCh` on the list of characters.
-/

namespace EmpTrack

/-- ASCII whitespace accepted (and stripped) by Python `int(str)`. -/
def isPySpace (c : Char) : Bool :=
  c = ' ' || c = '\t' || c = '\n' || c = '\r' || c = '\x0b' || c = '\x0c'

/-- Digit run of a Python integer literal after its first digit: digits,
with single underscores allowed between two digits. `acc` is the value
of the digits already read. -/
def digitsCore (acc : Nat) : List Char → Option Nat
  | [] => some acc
  | c :: cs =>
    if c.isDigit then digitsCore (10 * acc + (c.toNat - 48)) cs
    else if c = '_' then
      match cs with
      | d :: cs2 =>
          if d.isDigit then digitsCore (10 * acc + (d.toNat - 48)) cs2 else none
      | [] => none
    else none

/-- Unsigned part of Python `int(str)`: a nonempty digit run. -/
def pyNat : List Char → Option Nat
  | [] => none
  | c :: cs => if c.isDigit then digitsCore (c.toNat - 48) cs else none

/-- Strip leading and trailing ASCII whitespace, as `int(str)` does. -/
def pyTrim (s : List Char) : List Char :=
  ((s.dropWhile isPySpace).reverse.dropWhile isPySpace).reverse

/-- Sign handling of `int(str)`: an optional single leading `+` or `-`
before the digit run. -/
def pySigned : List Char → Option Int
  | [] => none
  | c :: rest =>
    if c = '+' then (pyNat rest).map (fun k : Nat => (k : Int))
    else if c = '-' then (pyNat rest).map (fun k : Nat => -(k : Int))
    else (pyNat (c :: rest)).map (fun k : Nat => (k : Int))

/-- Python `int(str)` on a character list: strip surrounding whitespace,
optional single sign, then a digit run; `none` models `ValueError`. -/
def pyInt (s : List Char) : Option Int :=
  pySigned (pyTrim s)

/-- Python `s.split(sep)` for a one-character separator: the (possibly
empty) runs between separator occurrences; `split` of the empty string
is `[[]]`. -/
def splitCh (sep : Char) : List Char → List (List Char)
  | [] => [[]]
  | c :: rest =>
    let r := splitCh sep rest
    if c = sep then [] :: r
    else
      match r with
      | h :: t => (c :: h) :: t
      | [] => [[c]]

/-- A raw cell of the `video_duration` column: Python values reaching
`time_to_minutes` are either strings or non-strings (numbers, NaN). -/
inductive PyVal where
  | str (s : String)
  | num (q : ℚ)
  | na
deriving DecidableEq

/-- `time_to_minutes` from the source: on a string, split on `:`;
two parts `[a, b]` give `int(a) + int(b)/60`, three parts give
`int(a)*60 + int(b) + int(c)/60`; any other shape, any `int` failure
(the `except` branch), or a non-string input returns `0`. -/
def time_to_minutes (t : PyVal) : ℚ :=
  match t with
  | .str s =>
    match splitCh ':' s.data with
    | [a, b] =>
      match pyInt a, pyInt b with
      | some x, some y => (x : ℚ) + (y : ℚ) / 60
      | _, _ => 0
    | [a, b, c] =>
      match pyInt a, pyInt b, pyInt c with
      | some x, some y, some z => (x : ℚ) * 60 + (y : ℚ) + (z : ℚ) / 60
      | _, _, _ => 0
    | _ => 0
  | _ => 0

/-! ## Grouping with sorted keys

`df.groupby(keys)` with the default `sort=True` iterates the distinct
group keys in ascending order, lexicographic for a `MultiIndex`. -/

/-- Lexicographic `≤` on a pair whose first component carries a linear
order; the second component is compared by `le2` when the firsts tie. -/
def lexLe {α β : Type} [LinearOrder α] (le2 : β → β → Prop) (a b : α × β) : Prop :=
  a.1 < b.1 ∨ (a.1 = b.1 ∧ le2 a.2 b.2)

instance {α β : Type} [LinearOrder α] {le2 : β → β → Prop} [DecidableRel le2] :
    DecidableRel (lexLe (α := α) le2) := fun a b =>
  have : Decidable (le2 a.2 b.2) := inferInstance
  inferInstanceAs (Decidable (a.1 < b.1 ∨ (a.1 = b.1 ∧ le2 a.2 b.2)))

instance {α β : Type} [LinearOrder α] {le2 : β → β → Prop} [IsTotal β le2] :
    IsTotal (α × β) (lexLe le2) where
  total a b := by
    rcases lt_trichotomy a.1 b.1 with h | h | h
    · exact Or.inl (Or.inl h)
    · rcases IsTotal.total (r := le2) a.2 b.2 with h2 | h2
      · exact Or.inl (Or.inr ⟨h, h2⟩)
      · exact Or.inr (Or.inr ⟨h.symm, h2⟩)
    · exact Or.inr (Or.inl h)

instance {α β : Type} [LinearOrder α] {le2 : β → β → Prop} [IsTrans β le2] :
    IsTrans (α × β) (lexLe le2) where
  trans a b c hab hbc := by
    rcases hab with h1 | ⟨e1, l1⟩
    · rcases hbc with h2 | ⟨e2, l2⟩
      · exact Or.inl (h1.trans h2)
      · exact Or.inl (lt_of_lt_of_eq h1 e2)
    · rcases hbc with h2 | ⟨e2, l2⟩
      · exact Or.inl (lt_of_eq_of_lt e1 h2)
      · exact Or.inr ⟨e1.trans e2, IsTrans.trans (r := le2) _ _ _ l1 l2⟩

/-- The distinct elements of a list, first occurrence first. -/
def uniqueKeys {K : Type} [DecidableEq K] : List K → List K
  | [] => []
  | k :: ks => k :: uniqueKeys (ks.filter (fun x => decide (x ≠ k)))
termination_by l => l.length
decreasing_by
  simp only [List.length_cons]
  exact Nat.lt_succ_of_le (List.length_filter_le _ _)

/-- `df.groupby(keys).agg(...).reset_index()` with the default
`sort=True`: the distinct values of the grouping key, sorted ascending
by `le`, each paired with the rows of its group (in input order). -/
def groupAgg {V K : Type} [DecidableEq K] (le : K → K → Prop) [DecidableRel le]
    (key : V → K) (rows : List V) : List (K × List V) :=
  (List.insertionSort le (uniqueKeys (rows.map key))).map
    (fun k => (k, rows.filter (fun v => decide (key v = k))))

/-! ## The normalized employee table

One row of `employee_df` after normalization: column names already
canonicalized, rows with unparsable `start_date` already dropped (so
`start_date` is present in every row), temporal keys already derived.
Dates are modelled as integers (day ordinals); `end_date` is `none` when
`pd.to_datetime(..., errors=\x27coerce\x27)` produced `NaT`.  The four
optional buffer columns live in `extra`, keyed by normalized column
name; `cols` lists which optional columns are present in the frame. -/

structure EmpRow where
  name : String
  topic : String
  start_date : Int
  end_date : Option Int
  work_days : ℚ
  leave_days : ℚ
  week_number : Nat
  month : String
  month_number : Nat
  extra : List (String × ℚ)
deriving DecidableEq

/-- The normalized employee frame: optional columns present, and rows. -/
structure EmpTable where
  cols : List String
  rows : List EmpRow
deriving DecidableEq

/-- Value of row `r` in optional column `c` (0 when absent). -/
def getExtra (r : EmpRow) (c : String) : ℚ :=
  ((r.extra.find? (fun p => decide (p.1 = c))).map Prod.snd).getD 0

/-- Forget the `end_date` cell of a row. -/
def eraseEnd (r : EmpRow) : EmpRow :=
  { r with end_date := none }

/-- Forget the optional (buffer) cells of a row. -/
def eraseBuf (r : EmpRow) : EmpRow :=
  { r with extra := [] }

/-! ## Weekly Performance -/

/-- The columns of `employee_df` read by the weekly aggregation. -/
structure WeeklyIn where
  name : String
  week_number : Nat
  work_days : ℚ
  leave_days : ℚ
  topic : String
deriving DecidableEq

def weeklyIn (r : EmpRow) : WeeklyIn :=
  ⟨r.name, r.week_number, r.work_days, r.leave_days, r.topic⟩

/-- One row of `weekly_summary`. -/
structure WeeklyRow where
  name : String
  week_number : Nat
  total_work_days : ℚ
  total_leave_days : ℚ
  ppt_count : Nat
  weekly_target : Nat
  target_met : Bool
deriving DecidableEq

/-- `weekly_summary` from the source: group by `(name, week_number)`;
`total_work_days`/`total_leave_days` are sums, `ppt_count` is
`(\x27topic\x27, \x27count\x27)` — the number of (non-null) `topic`
cells of the group, duplicates included — and `target_met` is
`ppt_count >= 6`. -/
def weekly_summary (t : EmpTable) : List WeeklyRow :=
  (groupAgg (lexLe (· ≤ ·)) (fun r : WeeklyIn => (r.name, r.week_number))
      (t.rows.map weeklyIn)).map
    (fun kg =>
      { name := kg.1.1
        week_number := kg.1.2
        total_work_days := (kg.2.map WeeklyIn.work_days).sum
        total_leave_days := (kg.2.map WeeklyIn.leave_days).sum
        ppt_count := (kg.2.map WeeklyIn.topic).length
        weekly_target := 6
        target_met := decide (6 ≤ (kg.2.map WeeklyIn.topic).length) })

/-! ## Monthly Performance -/

/-- The columns of `employee_df` read by the monthly aggregation. -/
structure MonthlyIn where
  name : String
  month : String
  month_number : Nat
  week_number : Nat
  work_days : ℚ
  leave_days : ℚ
  topic : String
deriving DecidableEq

def monthlyIn (r : EmpRow) : MonthlyIn :=
  ⟨r.name, r.month, r.month_number, r.week_number, r.work_days, r.leave_days, r.topic⟩

/-- One row of `monthly_summary`. -/
structure MonthlyRow where
  name : String
  month : String
  month_number : Nat
  total_work_days : ℚ
  total_leave_days : ℚ
  ppt_count : Nat
  unique_weeks : Nat
  monthly_target : Nat
  target_met : Bool
deriving DecidableEq

/-- `monthly_summary` from the source: group by
`(name, month, month_number)`; `ppt_count` is `nunique` of `topic`,
`unique_weeks` is `nunique` of `week_number`, `monthly_target` is
`unique_weeks * 6` and `target_met` is `ppt_count >= monthly_target`. -/
def monthly_summary (t : EmpTable) : List MonthlyRow :=
  (groupAgg (lexLe (lexLe (· ≤ ·)))
      (fun r : MonthlyIn => (r.name, (r.month, r.month_number)))
      (t.rows.map monthlyIn)).map
    (fun kg =>
      { name := kg.1.1
        month := kg.1.2.1
        month_number := kg.1.2.2
        total_work_days := (kg.2.map MonthlyIn.work_days).sum
        total_leave_days := (kg.2.map MonthlyIn.leave_days).sum
        ppt_count := (kg.2.map MonthlyIn.topic).dedup.length
        unique_weeks := (kg.2.map MonthlyIn.week_number).dedup.length
        monthly_target := (kg.2.map MonthlyIn.week_number).dedup.length * 6
        target_met := decide ((kg.2.map MonthlyIn.week_number).dedup.length * 6
          ≤ (kg.2.map MonthlyIn.topic).dedup.length) })

/-! ## Overall Statistics -/

structure OverallIn where
  name : String
  work_days : ℚ
  leave_days : ℚ
  topic : String
deriving DecidableEq

def overallIn (r : EmpRow) : OverallIn :=
  ⟨r.name, r.work_days, r.leave_days, r.topic⟩

/-- One row of the overall `summary`. -/
structure OverallRow where
  name : String
  total_work_days : ℚ
  total_leave_days : ℚ
  total_ppt_count : Nat
deriving DecidableEq

/-- The overall `summary` from the source: group by `name`; sums of the
day columns and `nunique` of `topic`. -/
def summary (t : EmpTable) : List OverallRow :=
  (groupAgg ((· ≤ ·) : String → String → Prop) (fun r : OverallIn => r.name)
      (t.rows.map overallIn)).map
    (fun kg =>
      { name := kg.1
        total_work_days := (kg.2.map OverallIn.work_days).sum
        total_leave_days := (kg.2.map OverallIn.leave_days).sum
        total_ppt_count := (kg.2.map OverallIn.topic).dedup.length })

/-! ## Attendance -/

structure AttIn where
  name : String
  month : String
  start_date : Int
  work_days : ℚ
  leave_days : ℚ
deriving DecidableEq

def attIn (r : EmpRow) : AttIn :=
  ⟨r.name, r.month, r.start_date, r.work_days, r.leave_days⟩

/-- One row of `attendance` (after the `present_days`/`absent_days`
columns are added). -/
structure AttRow where
  name : String
  month : String
  total_days : Nat
  work_days : ℚ
  leave_days : ℚ
  present_days : ℚ
  absent_days : ℚ
deriving DecidableEq

/-- `attendance` from the source: group by `(name, month)`;
`total_days` counts the (non-null) `start_date` cells of the group,
`present_days` copies the `work_days` sum, and
`absent_days = total_days - present_days`, unclamped. -/
def attendance (t : EmpTable) : List AttRow :=
  (groupAgg (lexLe (· ≤ ·)) (fun r : AttIn => (r.name, r.month))
      (t.rows.map attIn)).map
    (fun kg =>
      { name := kg.1.1
        month := kg.1.2
        total_days := (kg.2.map AttIn.start_date).length
        work_days := (kg.2.map AttIn.work_days).sum
        leave_days := (kg.2.map AttIn.leave_days).sum
        present_days := (kg.2.map AttIn.work_days).sum
        absent_days := ((kg.2.map AttIn.start_date).length : ℚ)
          - (kg.2.map AttIn.work_days).sum })

/-- `attendance[attendance[\x27name\x27] == emp].iloc[0]`: the first
attendance row of the selected employee (`none` when there is none and
`iloc[0]` would raise). -/
def emp_att (t : EmpTable) (emp : String) : Option AttRow :=
  ((attendance t).filter (fun row => decide (row.name = emp))).head?

/-- The Present/Absent/Leave pie of one attendance row. -/
def pie_data (row : AttRow) : List (String × ℚ) :=
  [("Present", row.present_days), ("Absent", row.absent_days), ("Leave", row.leave_days)]

/-- The drill-down pie shown for the selected employee. -/
def emp_pie (t : EmpTable) (emp : String) : Option (List (String × ℚ)) :=
  (emp_att t emp).map pie_data

/-! ## PPT, Illustration and AE Buffer

The required column names are the ones the source checks for; note the
apostrophe (U+0027, written `\x27` below) inside the first two. -/

def buffer_required : List String :=
  ["ppt\x27s_buffer", "lab_ppt\x27s_buffer", "illu_buffer", "ae_buffer"]

structure BufIn where
  name : String
  ppts_buffer : ℚ
  lab_ppts_buffer : ℚ
  illu_buffer : ℚ
  ae_buffer : ℚ
deriving DecidableEq

def bufIn (r : EmpRow) : BufIn :=
  ⟨r.name, getExtra r "ppt\x27s_buffer", getExtra r "lab_ppt\x27s_buffer",
    getExtra r "illu_buffer", getExtra r "ae_buffer"⟩

/-- One row of `buffer_summary` (per-name sums of the four columns). -/
structure BufRow where
  name : String
  ppts_buffer : ℚ
  lab_ppts_buffer : ℚ
  illu_buffer : ℚ
  ae_buffer : ℚ
deriving DecidableEq

/-- The buffer report either shows the summary table or the
`st.warning` fallback when a required column is missing. -/
inductive BufferReport where
  | available (rows : List BufRow)
  | unavailable
deriving DecidableEq

/-- `buffer_summary` from the source: if all four buffer columns are
present, group by `name` and sum each buffer column; otherwise the
report degrades to the warning state. -/
def buffer_summary (t : EmpTable) : BufferReport :=
  if buffer_required.all (fun c => decide (c ∈ t.cols)) then
    BufferReport.available
      ((groupAgg ((· ≤ ·) : String → String → Prop) (fun r : BufIn => r.name)
          (t.rows.map bufIn)).map
        (fun kg =>
          { name := kg.1
            ppts_buffer := (kg.2.map BufIn.ppts_buffer).sum
            lab_ppts_buffer := (kg.2.map BufIn.lab_ppts_buffer).sum
            illu_buffer := (kg.2.map BufIn.illu_buffer).sum
            ae_buffer := (kg.2.map BufIn.ae_buffer).sum }))
  else BufferReport.unavailable

/-! ## Video Duration -/

/-- One row of the (normalized) video frame. -/
structure VideoIn where
  name : String
  video_duration : PyVal
deriving DecidableEq

/-- One row of `video_summary`. -/
structure VideoSumRow where
  name : String
  total_minutes : ℚ
  target_minutes : ℚ
  target_met : Bool
deriving DecidableEq

/-- `video_summary` from the source: derive
`total_minutes = time_to_minutes(video_duration)` per record, group by
`name`, sum, attach `target_minutes = 90` and
`target_met = total_minutes >= 90`. -/
def video_summary (vt : List VideoIn) : List VideoSumRow :=
  (groupAgg ((· ≤ ·) : String → String → Prop) (fun p : String × ℚ => p.1)
      (vt.map (fun v => (v.name, time_to_minutes v.video_duration)))).map
    (fun kg =>
      { name := kg.1
        total_minutes := (kg.2.map Prod.snd).sum
        target_minutes := 90
        target_met := decide ((90 : ℚ) ≤ (kg.2.map Prod.snd).sum) })

/-- A plain employee row: week `w`, topic `tp`, month March,
one work day, no leave, no optional columns. -/
def mkRow (n : String) (w : Nat) (tp : String) : EmpRow :=
  ⟨n, tp, 0, none, 1, 0, w, "March", 3, []⟩

/-- An employee row with explicit month and day counts. -/
def mkRowM (n : String) (w : Nat) (tp mo : String) (mn : Nat) (wd ld : ℚ) : EmpRow :=
  ⟨n, tp, 0, none, wd, ld, w, mo, mn, []⟩

/-! ## Helper lemmas about `groupAgg` -/

theorem groupAgg_mem {V K : Type} [DecidableEq K] (le : K → K → Prop) [DecidableRel le]
    (key : V → K) (rows : List V) {kg : K × List V}
    (h : kg ∈ groupAgg le key rows) :
    kg.2 = rows.filter (fun v => decide (key v = kg.1)) := by
  obtain ⟨k, _, rfl⟩ := List.mem_map.1 h
  rfl

theorem map_map_eq {α β γ : Type} (f : α → β) (g : β → γ) (h : α → γ)
    (hc : ∀ a, g (f a) = h a) (l : List α) : (l.map f).map g = l.map h := by
  induction l with
  | nil => rfl
  | cons a l ih => simp [hc, ih]

theorem groupAgg_keys {V K : Type} [DecidableEq K] (le : K → K → Prop) [DecidableRel le]
    (key : V → K) (rows : List V) :
    (groupAgg le key rows).map Prod.fst
      = List.insertionSort le (uniqueKeys (rows.map key)) := by
  unfold groupAgg
  rw [List.map_map]
  exact List.map_id _

theorem groupAgg_sorted {V K : Type} [DecidableEq K] (le : K → K → Prop) [DecidableRel le]
    [IsTotal K le] [IsTrans K le] (key : V → K) (rows : List V) :
    List.Sorted le ((groupAgg le key rows).map Prod.fst) := by
  rw [groupAgg_keys]
  exact List.sorted_insertionSort le _

/-! ## C1 — weekly `ppt_count` -/

/-- C1, as stated, is false on the code: the weekly aggregation computes
`ppt_count` with `(\x27topic\x27, \x27count\x27)`, which counts rows,
not distinct topics.  A group of two rows with the same topic gets
`ppt_count = 2`, while the number of distinct topic values is 1. -/
theorem weekly_ppt_count_not_distinct :
    ¬ (∀ t : EmpTable, ∀ row ∈ weekly_summary t,
        row.ppt_count
          = ((t.rows.filter (fun r =>
                decide (r.name = row.name ∧ r.week_number = row.week_number))).map
              EmpRow.topic).dedup.length) := by
  intro h
  have hex : ∃ row ∈ weekly_summary ⟨[], [mkRow "A" 3 "x", mkRow "A" 3 "x"]⟩,
      row.ppt_count = 2 ∧ row.name = "A" ∧ row.week_number = 3 := by
    simp +decide [weekly_summary, groupAgg, uniqueKeys, weeklyIn, mkRow, lexLe]
  obtain ⟨row, hm, hc, hn, hw⟩ := hex
  have h2 := h ⟨[], [mkRow "A" 3 "x", mkRow "A" 3 "x"]⟩ row hm
  rw [hc, hn, hw] at h2
  simp +decide [mkRow] at h2

/-- C1 amended: in every weekly summary row, `ppt_count` is the number
of rows of the `(name, week_number)` group (pandas `count` of the
`topic` column, duplicates included), and `target_met` holds iff
`ppt_count ≥ 6`. -/
theorem weekly_ppt_count_row_count (t : EmpTable) (row : WeeklyRow)
    (h : row ∈ weekly_summary t) :
    row.ppt_count
        = (t.rows.filter (fun r =>
            decide (r.name = row.name ∧ r.week_number = row.week_number))).length
      ∧ (row.target_met = true ↔ 6 ≤ row.ppt_count) := by
  obtain ⟨kg, hkg, rfl⟩ := List.mem_map.1 h
  have h2 := groupAgg_mem _ _ _ hkg
  refine ⟨?_, by simp⟩
  show (kg.2.map WeeklyIn.topic).length = _
  rw [List.length_map, h2, List.filter_map weeklyIn, List.length_map]
  apply congrArg List.length
  apply List.filter_congr
  intro r _
  rw [Function.comp_apply, decide_eq_decide]
  simp [weeklyIn, Prod.ext_iff]

/-- Witness for C1 amended: an employee with seven one-topic rows in
week 3 gets `ppt_count = 7` and `target_met = true`. -/
theorem weekly_ppt_count_row_count_witness :
    (7 = (List.filter (fun r =>
            decide (r.name = "A" ∧ r.week_number = 3))
          [mkRow "A" 3 "t1", mkRow "A" 3 "t2", mkRow "A" 3 "t3", mkRow "A" 3 "t4",
            mkRow "A" 3 "t5", mkRow "A" 3 "t6", mkRow "A" 3 "t7"]).length)
      ∧ (true = true ↔ 6 ≤ 7) := by
  have h := weekly_ppt_count_row_count
    ⟨[], [mkRow "A" 3 "t1", mkRow "A" 3 "t2", mkRow "A" 3 "t3", mkRow "A" 3 "t4",
      mkRow "A" 3 "t5", mkRow "A" 3 "t6", mkRow "A" 3 "t7"]⟩
    { name := "A", week_number := 3, total_work_days := 7, total_leave_days := 0,
      ppt_count := 7, weekly_target := 6, target_met := true }
    (by simp +decide [weekly_summary, groupAgg, uniqueKeys, weeklyIn, mkRow, lexLe]
        norm_num)
  exact h

/-! ## C6 — monthly target scaling -/

/-- C6: in every monthly summary row, `monthly_target` equals
`unique_weeks * 6` where `unique_weeks` is the number of distinct
`week_number` values of the `(name, month, month_number)` group, and
`target_met` holds iff `ppt_count` (distinct topics of the group)
reaches that target. -/
theorem monthly_target_scaling (t : EmpTable) (row : MonthlyRow)
    (h : row ∈ monthly_summary t) :
    row.monthly_target = row.unique_weeks * 6
      ∧ (row.target_met = true ↔ row.monthly_target ≤ row.ppt_count)
      ∧ row.unique_weeks = ((t.rows.filter (fun r =>
          decide (r.name = row.name ∧ r.month = row.month
            ∧ r.month_number = row.month_number))).map EmpRow.week_number).dedup.length
      ∧ row.ppt_count = ((t.rows.filter (fun r =>
          decide (r.name = row.name ∧ r.month = row.month
            ∧ r.month_number = row.month_number))).map EmpRow.topic).dedup.length := by
  obtain ⟨kg, hkg, rfl⟩ := List.mem_map.1 h
  have h2 := groupAgg_mem _ _ _ hkg
  have hfilter : kg.2
      = (t.rows.filter (fun r =>
          decide (r.name = kg.1.1 ∧ r.month = kg.1.2.1
            ∧ r.month_number = kg.1.2.2))).map monthlyIn := by
    rw [h2, List.filter_map monthlyIn]
    refine congrArg _ (List.filter_congr ?_)
    intro r _
    rw [Function.comp_apply, decide_eq_decide]
    simp [monthlyIn, Prod.ext_iff]
  refine ⟨rfl, by simp, ?_, ?_⟩
  · show (kg.2.map MonthlyIn.week_number).dedup.length = _
    rw [hfilter, map_map_eq monthlyIn MonthlyIn.week_number EmpRow.week_number
      (fun r => rfl)]
  · show (kg.2.map MonthlyIn.topic).dedup.length = _
    rw [hfilter, map_map_eq monthlyIn MonthlyIn.topic EmpRow.topic (fun r => rfl)]

/-- Witness for C6: an employee active in a single week of March with
four distinct topics gets `monthly_target = 1 * 6 = 6` and
`target_met = false`. -/
theorem monthly_target_scaling_witness :
    (6 = 1 * 6)
      ∧ (false = true ↔ 6 ≤ 4)
      ∧ (1 = ((List.filter (fun r =>
          decide (r.name = "Bob" ∧ r.month = "March" ∧ r.month_number = 3))
          [mkRowM "Bob" 10 "t1" "March" 3 1 0, mkRowM "Bob" 10 "t2" "March" 3 1 0,
            mkRowM "Bob" 10 "t3" "March" 3 1 0, mkRowM "Bob" 10 "t4" "March" 3 1 0]).map
          EmpRow.week_number).dedup.length)
      ∧ (4 = ((List.filter (fun r =>
          decide (r.name = "Bob" ∧ r.month = "March" ∧ r.month_number = 3))
          [mkRowM "Bob" 10 "t1" "March" 3 1 0, mkRowM "Bob" 10 "t2" "March" 3 1 0,
            mkRowM "Bob" 10 "t3" "March" 3 1 0, mkRowM "Bob" 10 "t4" "March" 3 1 0]).map
          EmpRow.topic).dedup.length) :=
  monthly_target_scaling
    ⟨[], [mkRowM "Bob" 10 "t1" "March" 3 1 0, mkRowM "Bob" 10 "t2" "March" 3 1 0,
      mkRowM "Bob" 10 "t3" "March" 3 1 0, mkRowM "Bob" 10 "t4" "March" 3 1 0]⟩
    { name := "Bob", month := "March", month_number := 3, total_work_days := 4,
      total_leave_days := 0, ppt_count := 4, unique_weeks := 1, monthly_target := 6,
      target_met := false }
    (by simp +decide [monthly_summary, groupAgg, uniqueKeys, monthlyIn, mkRowM, lexLe]
        norm_num)

/-! ## C8 — attendance split -/

/-- C8: in every attendance row, `total_days` is the row count of the
`(name, month)` group, `present_days` is the `work_days` sum of the
group, and `absent_days = total_days - present_days` exactly, with no
clamping. -/
theorem attendance_unclamped (t : EmpTable) (row : AttRow)
    (h : row ∈ attendance t) :
    row.total_days
        = (t.rows.filter (fun r =>
            decide (r.name = row.name ∧ r.month = row.month))).length
      ∧ row.present_days
        = ((t.rows.filter (fun r =>
            decide (r.name = row.name ∧ r.month = row.month))).map
            EmpRow.work_days).sum
      ∧ row.absent_days = (row.total_days : ℚ) - row.present_days := by
  obtain ⟨kg, hkg, rfl⟩ := List.mem_map.1 h
  have h2 := groupAgg_mem _ _ _ hkg
  have hfilter : kg.2
      = (t.rows.filter (fun r =>
          decide (r.name = kg.1.1 ∧ r.month = kg.1.2))).map attIn := by
    rw [h2, List.filter_map attIn]
    refine congrArg _ (List.filter_congr ?_)
    intro r _
    rw [Function.comp_apply, decide_eq_decide]
    simp [attIn, Prod.ext_iff]
  refine ⟨?_, ?_, rfl⟩
  · show (kg.2.map AttIn.start_date).length = _
    rw [List.length_map, hfilter, List.length_map]
  · show (kg.2.map AttIn.work_days).sum = _
    rw [hfilter, map_map_eq attIn AttIn.work_days EmpRow.work_days (fun r => rfl)]

/-- Witness for C8, on input where the `work_days` sum (3) exceeds the
group row count (1): `absent_days` is the negative value `-2`. -/
theorem attendance_unclamped_witness :
    (1 = (List.filter (fun r => decide (r.name = "A" ∧ r.month = "March"))
          [mkRowM "A" 10 "x" "March" 3 3 0]).length)
      ∧ ((3 : ℚ) = ((List.filter (fun r => decide (r.name = "A" ∧ r.month = "March"))
          [mkRowM "A" 10 "x" "March" 3 3 0]).map EmpRow.work_days).sum)
      ∧ ((-2 : ℚ) = ((1 : Nat) : ℚ) - (3 : ℚ)) :=
  attendance_unclamped ⟨[], [mkRowM "A" 10 "x" "March" 3 3 0]⟩
    { name := "A", month := "March", total_days := 1, work_days := 3, leave_days := 0,
      present_days := 3, absent_days := -2 }
    (by simp +decide [attendance, groupAgg, uniqueKeys, attIn, mkRowM, lexLe]
        norm_num)

/-! ## C10 — attendance drill-down uses only the first row -/

/-- C10: the Present/Absent/Leave pie for a selected employee is built
from the first attendance row of that name (in the attendance table
order); whatever rows follow — further months of the same employee —
do not influence the result. -/
theorem emp_pie_first_row_only (t : EmpTable) (e : String) (r0 : AttRow)
    (rest : List AttRow)
    (h : (attendance t).filter (fun row => decide (row.name = e)) = r0 :: rest) :
    emp_pie t e
      = some [("Present", r0.present_days), ("Absent", r0.absent_days),
          ("Leave", r0.leave_days)] := by
  unfold emp_pie emp_att
  rw [h]
  rfl

/-- Witness for C10: employee A has an April row and a March row
(attendance is sorted, so April comes first); the pie is built from the
April row only. -/
theorem emp_pie_first_row_only_witness :
    emp_pie ⟨[], [mkRowM "A" 10 "y" "March" 3 1 0, mkRowM "A" 15 "x" "April" 4 2 0]⟩ "A"
      = some [("Present", (2 : ℚ)), ("Absent", ((1 : Nat) : ℚ) - 2), ("Leave", 0)] :=
  emp_pie_first_row_only _ "A"
    ⟨"A", "April", 1, 2, 0, 2, ((1 : Nat) : ℚ) - 2⟩
    [⟨"A", "March", 1, 1, 0, 1, ((1 : Nat) : ℚ) - 1⟩]
    (by simp +decide [attendance, groupAgg, uniqueKeys, attIn, mkRowM, lexLe])

/-! ## C4 — output ordering -/

/-- C4, as stated, is false on the code: `groupby` defaults to
`sort=True`, so summary rows come out sorted ascending by group key,
not in insertion order of first occurrence.  With input keys `("b",1)`
then `("a",1)`, the weekly summary lists `("a",1)` first. -/
theorem output_order_not_insertion :
    ¬ (∀ t : EmpTable,
        (weekly_summary t).map (fun row => (row.name, row.week_number))
          = uniqueKeys ((t.rows.map weeklyIn).map
              (fun r => (r.name, r.week_number)))) := by
  intro h
  have h2 := h ⟨[], [mkRow "b" 1 "x", mkRow "a" 1 "y"]⟩
  simp +decide [weekly_summary, groupAgg, uniqueKeys, weeklyIn, mkRow, lexLe] at h2

/-- C4 amended: in every report the summary rows are sorted ascending
by the group key (lexicographically for tuple keys), which is what
pandas `groupby(sort=True)` imposes — not first-occurrence insertion
order. -/
theorem output_sorted_by_key (t : EmpTable) (vt : List VideoIn) :
    List.Sorted (lexLe (· ≤ ·))
        ((weekly_summary t).map (fun row => (row.name, row.week_number)))
      ∧ List.Sorted (lexLe (lexLe (· ≤ ·)))
        ((monthly_summary t).map (fun row => (row.name, (row.month, row.month_number))))
      ∧ List.Sorted (· ≤ ·) ((summary t).map OverallRow.name)
      ∧ List.Sorted (lexLe (· ≤ ·))
        ((attendance t).map (fun row => (row.name, row.month)))
      ∧ List.Sorted (· ≤ ·) ((video_summary vt).map VideoSumRow.name)
      ∧ (∀ rows : List BufRow, buffer_summary t = BufferReport.available rows →
          List.Sorted (· ≤ ·) (rows.map BufRow.name)) := by
  refine ⟨?_, ?_, ?_, ?_, ?_, ?_⟩
  · unfold weekly_summary
    rw [List.map_map]
    exact groupAgg_sorted _ _ _
  · unfold monthly_summary
    rw [List.map_map]
    exact groupAgg_sorted _ _ _
  · unfold summary
    rw [List.map_map]
    exact groupAgg_sorted _ _ _
  · unfold attendance
    rw [List.map_map]
    exact groupAgg_sorted _ _ _
  · unfold video_summary
    rw [List.map_map]
    exact groupAgg_sorted _ _ _
  · intro rows he
    unfold buffer_summary at he
    split at he
    · obtain rfl : _ = rows := BufferReport.available.inj he
      rw [List.map_map]
      exact groupAgg_sorted _ _ _
    · exact BufferReport.noConfusion he

/-- Witness for C4 amended: a table with the four buffer columns and
rows for employees `B` then `A`; every summary — the buffer rows
included — comes out in ascending name order. -/
theorem output_sorted_by_key_witness :
    List.Sorted (α := String) (· ≤ ·)
      (([⟨"A", 0, 0, 0, 0⟩, ⟨"B", 0, 0, 0, 0⟩] : List BufRow).map BufRow.name) :=
  (output_sorted_by_key ⟨buffer_required, [mkRow "B" 1 "x", mkRow "A" 1 "y"]⟩ []).2.2.2.2.2
    [⟨"A", 0, 0, 0, 0⟩, ⟨"B", 0, 0, 0, 0⟩]
    (by simp +decide [buffer_summary, buffer_required, groupAgg, uniqueKeys, bufIn,
      getExtra, mkRow, lexLe])

/-! ## C9 — no report reads `end_date` -/

/-- C9: two normalized tables that agree on everything except the
`end_date` cells (which may be arbitrary, including `none` for an
unparsable date) produce identical summaries in all five employee
reports; `end_date` is never read after normalization, and no row is
dropped over it (the tables have the same rows, in the same order). -/
theorem reports_ignore_end_date (t₁ t₂ : EmpTable)
    (hcols : t₁.cols = t₂.cols)
    (hrows : t₁.rows.map eraseEnd = t₂.rows.map eraseEnd) :
    weekly_summary t₁ = weekly_summary t₂
      ∧ monthly_summary t₁ = monthly_summary t₂
      ∧ summary t₁ = summary t₂
      ∧ attendance t₁ = attendance t₂
      ∧ buffer_summary t₁ = buffer_summary t₂ := by
  have hmap : ∀ {β : Type} (f : EmpRow → β), (∀ r, f (eraseEnd r) = f r) →
      t₁.rows.map f = t₂.rows.map f := by
    intro β f hf
    rw [← map_map_eq eraseEnd f f hf t₁.rows, hrows, map_map_eq eraseEnd f f hf t₂.rows]
  refine ⟨?_, ?_, ?_, ?_, ?_⟩
  · unfold weekly_summary
    rw [hmap weeklyIn (fun r => rfl)]
  · unfold monthly_summary
    rw [hmap monthlyIn (fun r => rfl)]
  · unfold summary
    rw [hmap overallIn (fun r => rfl)]
  · unfold attendance
    rw [hmap attIn (fun r => rfl)]
  · unfold buffer_summary
    rw [hcols, hmap bufIn (fun r => rfl)]

/-- Witness for C9: one table has `end_date = some 99`, the other the
unparsable `none`; every report agrees. -/
theorem reports_ignore_end_date_witness :
    weekly_summary ⟨[], [⟨"A", "x", 0, some 99, 1, 0, 3, "March", 3, []⟩]⟩
        = weekly_summary ⟨[], [⟨"A", "x", 0, none, 1, 0, 3, "March", 3, []⟩]⟩
      ∧ monthly_summary ⟨[], [⟨"A", "x", 0, some 99, 1, 0, 3, "March", 3, []⟩]⟩
        = monthly_summary ⟨[], [⟨"A", "x", 0, none, 1, 0, 3, "March", 3, []⟩]⟩
      ∧ summary ⟨[], [⟨"A", "x", 0, some 99, 1, 0, 3, "March", 3, []⟩]⟩
        = summary ⟨[], [⟨"A", "x", 0, none, 1, 0, 3, "March", 3, []⟩]⟩
      ∧ attendance ⟨[], [⟨"A", "x", 0, some 99, 1, 0, 3, "March", 3, []⟩]⟩
        = attendance ⟨[], [⟨"A", "x", 0, none, 1, 0, 3, "March", 3, []⟩]⟩
      ∧ buffer_summary ⟨[], [⟨"A", "x", 0, some 99, 1, 0, 3, "March", 3, []⟩]⟩
        = buffer_summary ⟨[], [⟨"A", "x", 0, none, 1, 0, 3, "March", 3, []⟩]⟩ :=
  reports_ignore_end_date _ _ rfl rfl

/-! ## C2 — buffer report availability -/

/-- C2, as stated, is false on the code: the availability check looks
for the columns `ppt\x27s_buffer` and `lab_ppt\x27s_buffer` (with an
apostrophe), not `ppt_buffer` / `lab_ppt_buffer`.  A table that has the
four apostrophe-free columns still gets the warning state. -/
theorem buffer_not_plain_columns :
    ¬ (∀ t : EmpTable,
        (buffer_summary t ≠ BufferReport.unavailable
          ↔ ∀ c ∈ ["ppt_buffer", "lab_ppt_buffer", "illu_buffer", "ae_buffer"],
              c ∈ t.cols)) := by
  intro h
  have h2 := (h ⟨["ppt_buffer", "lab_ppt_buffer", "illu_buffer", "ae_buffer"], []⟩).mpr
    (by decide)
  exact h2 (by decide)

/-- C2 amended: the Buffer report is available — per name, the sum of
each of the four buffer columns `ppt\x27s_buffer`, `lab_ppt\x27s_buffer`,
`illu_buffer`, `ae_buffer` (apostrophes included) — exactly when all
four of those columns are present; otherwise only this report degrades
to the warning state, and the other four employee reports do not read
the buffer columns at all. -/
theorem buffer_availability_and_isolation :
    (∀ t : EmpTable,
        (buffer_summary t = BufferReport.unavailable
          ↔ ¬ ∀ c ∈ buffer_required, c ∈ t.cols))
      ∧ (∀ t : EmpTable, ∀ rows : List BufRow,
          buffer_summary t = BufferReport.available rows →
          ∀ row ∈ rows,
            row.ppts_buffer
                = ((t.rows.filter (fun r => decide (r.name = row.name))).map
                    (fun r => getExtra r "ppt\x27s_buffer")).sum
              ∧ row.lab_ppts_buffer
                = ((t.rows.filter (fun r => decide (r.name = row.name))).map
                    (fun r => getExtra r "lab_ppt\x27s_buffer")).sum
              ∧ row.illu_buffer
                = ((t.rows.filter (fun r => decide (r.name = row.name))).map
                    (fun r => getExtra r "illu_buffer")).sum
              ∧ row.ae_buffer
                = ((t.rows.filter (fun r => decide (r.name = row.name))).map
                    (fun r => getExtra r "ae_buffer")).sum)
      ∧ (∀ t₁ t₂ : EmpTable, t₁.rows.map eraseBuf = t₂.rows.map eraseBuf →
          weekly_summary t₁ = weekly_summary t₂
            ∧ monthly_summary t₁ = monthly_summary t₂
            ∧ summary t₁ = summary t₂
            ∧ attendance t₁ = attendance t₂) := by
  refine ⟨?_, ?_, ?_⟩
  · intro t
    constructor
    · intro he hall
      have hc : buffer_required.all (fun c => decide (c ∈ t.cols)) = true := by
        rw [List.all_eq_true]
        intro c hcm
        exact decide_eq_true (hall c hcm)
      unfold buffer_summary at he
      rw [if_pos hc] at he
      exact BufferReport.noConfusion he
    · intro hnall
      have hc : ¬ (buffer_required.all (fun c => decide (c ∈ t.cols)) = true) := by
        intro hall
        apply hnall
        rw [List.all_eq_true] at hall
        intro c hcm
        exact of_decide_eq_true (hall c hcm)
      unfold buffer_summary
      rw [if_neg hc]
  · intro t rows he row hrow
    unfold buffer_summary at he
    split at he
    · obtain rfl : _ = rows := BufferReport.available.inj he
      obtain ⟨kg, hkg, rfl⟩ := List.mem_map.1 hrow
      have h2 := groupAgg_mem _ _ _ hkg
      have hfilter : kg.2
          = (t.rows.filter (fun r => decide (r.name = kg.1))).map bufIn := by
        rw [h2, List.filter_map bufIn]
        refine congrArg _ (List.filter_congr ?_)
        intro r _
        rfl
      refine ⟨?_, ?_, ?_, ?_⟩
      · show (kg.2.map BufIn.ppts_buffer).sum = _
        rw [hfilter, map_map_eq bufIn BufIn.ppts_buffer
          (fun r => getExtra r "ppt\x27s_buffer") (fun r => rfl)]
      · show (kg.2.map BufIn.lab_ppts_buffer).sum = _
        rw [hfilter, map_map_eq bufIn BufIn.lab_ppts_buffer
          (fun r => getExtra r "lab_ppt\x27s_buffer") (fun r => rfl)]
      · show (kg.2.map BufIn.illu_buffer).sum = _
        rw [hfilter, map_map_eq bufIn BufIn.illu_buffer
          (fun r => getExtra r "illu_buffer") (fun r => rfl)]
      · show (kg.2.map BufIn.ae_buffer).sum = _
        rw [hfilter, map_map_eq bufIn BufIn.ae_buffer
          (fun r => getExtra r "ae_buffer") (fun r => rfl)]
    · exact BufferReport.noConfusion he
  · intro t₁ t₂ hrows
    have hmap : ∀ {β : Type} (f : EmpRow → β), (∀ r, f (eraseBuf r) = f r) →
        t₁.rows.map f = t₂.rows.map f := by
      intro β f hf
      rw [← map_map_eq eraseBuf f f hf t₁.rows, hrows,
        map_map_eq eraseBuf f f hf t₂.rows]
    refine ⟨?_, ?_, ?_, ?_⟩
    · unfold weekly_summary
      rw [hmap weeklyIn (fun r => rfl)]
    · unfold monthly_summary
      rw [hmap monthlyIn (fun r => rfl)]
    · unfold summary
      rw [hmap overallIn (fun r => rfl)]
    · unfold attendance
      rw [hmap attIn (fun r => rfl)]

/-- Witness for C2 amended: with no optional columns at all, the buffer
report — and only it — is in the warning state. -/
theorem buffer_availability_witness :
    buffer_summary ⟨[], []⟩ = BufferReport.unavailable :=
  (buffer_availability_and_isolation.1 ⟨[], []⟩).mpr (by decide)

/-! ## C3 — Carol video scenario -/

/-- C3, as stated, is false on the code: `time_to_minutes` treats a
two-part string `a:b` as `int(a) + int(b)/60`, so `"1:00"` yields `1`
(not `60`) and `"0:45"` yields `3/4`; Carol totals `7/4 = 1.75`
minutes, not `60.75 = 243/4`. -/
theorem video_carol_not_sixty :
    ¬ ((video_summary [⟨"Carol", PyVal.str "1:00"⟩, ⟨"Carol", PyVal.str "0:45"⟩]).map
        VideoSumRow.total_minutes = [(243 : ℚ) / 4]) := by
  intro h
  simp +decide [video_summary, groupAgg, uniqueKeys, lexLe, time_to_minutes, splitCh,
    pyInt, pySigned, pyTrim, pyNat, digitsCore, isPySpace] at h
  norm_num at h

/-- C3 amended: for the video table with durations `"1:00"` and
`"0:45"` for SME Carol, `total_minutes = 1 + 3/4 = 7/4` and
`target_met = false` (since `7/4 < 90`). -/
theorem video_carol_amended :
    (video_summary [⟨"Carol", PyVal.str "1:00"⟩, ⟨"Carol", PyVal.str "0:45"⟩]).map
        (fun row => (row.name, row.total_minutes, row.target_met))
      = [("Carol", (7 : ℚ) / 4, false)] := by
  simp +decide [video_summary, groupAgg, uniqueKeys, lexLe, time_to_minutes, splitCh,
    pyInt, pySigned, pyTrim, pyNat, digitsCore, isPySpace, decide_eq_false_iff_not]
  norm_num

/-! ## C5 / C7 — the duration parser -/

theorem mem_of_mem_pyTrim {a : Char} {p : List Char} (h : a ∈ pyTrim p) : a ∈ p := by
  unfold pyTrim at h
  rw [List.mem_reverse] at h
  have h2 := (List.dropWhile_sublist isPySpace).subset h
  rw [List.mem_reverse] at h2
  exact (List.dropWhile_sublist isPySpace).subset h2

/-- A sign-free part parses to a nonnegative integer. -/
theorem pyInt_nonneg {p : List Char} (hp : '-' ∉ p) {n : Int}
    (h : pyInt p = some n) : 0 ≤ n := by
  unfold pyInt at h
  rcases ht : pyTrim p with _ | ⟨c, rest⟩ <;> rw [ht] at h
  · simp [pySigned] at h
  · by_cases h1 : c = '+'
    · rw [pySigned, if_pos h1] at h
      rcases Option.map_eq_some'.mp h with ⟨k, _, hn⟩
      subst hn
      exact Int.natCast_nonneg k
    · by_cases h2 : c = '-'
      · exact absurd (mem_of_mem_pyTrim
          (show '-' ∈ pyTrim p by rw [ht, h2]; exact List.mem_cons_self '-' rest)) hp
      · rw [pySigned, if_neg h1, if_neg h2] at h
        rcases Option.map_eq_some'.mp h with ⟨k, _, hn⟩
        subst hn
        exact Int.natCast_nonneg k

/-- C5, as stated, is false on the code: Python `int` accepts a sign,
so the duration `"-1:00"` parses and contributes the negative value
`-1`, not a value `≥ 0`. -/
theorem total_minutes_not_nonneg :
    ¬ (∀ v : PyVal, 0 ≤ time_to_minutes v) := by
  intro h
  have h2 := h (.str "-1:00")
  simp +decide [time_to_minutes, splitCh, pyInt, pySigned, pyTrim, pyNat, digitsCore,
    isPySpace] at h2
  try norm_num at h2

/-- C5 amended: `time_to_minutes` is total and yields `0` on anything
unparsable, and its value is `≥ 0` whenever no colon-separated part of
a string input contains a minus sign (non-string inputs give `0`);
a signed part such as `"-1:00"` can make it negative. -/
theorem time_to_minutes_nonneg (v : PyVal)
    (h : ∀ s, v = PyVal.str s → ∀ p ∈ splitCh ':' s.data, '-' ∉ p) :
    0 ≤ time_to_minutes v := by
  cases v with
  | str s =>
    have hs := h s rfl
    simp only [time_to_minutes]
    split
    next a b heq =>
      have ha : '-' ∉ a := hs a (by rw [heq]; simp)
      have hb : '-' ∉ b := hs b (by rw [heq]; simp)
      rcases hpa : pyInt a with _ | x
      · simp [hpa]
      rcases hpb : pyInt b with _ | y
      · simp [hpa, hpb]
      simp only [hpa, hpb]
      have hx := pyInt_nonneg ha hpa
      have hy := pyInt_nonneg hb hpb
      refine add_nonneg ?_ (div_nonneg ?_ (by norm_num))
      · exact_mod_cast hx
      · exact_mod_cast hy
    next a b c heq =>
      have ha : '-' ∉ a := hs a (by rw [heq]; simp)
      have hb : '-' ∉ b := hs b (by rw [heq]; simp)
      have hcc : '-' ∉ c := hs c (by rw [heq]; simp)
      rcases hpa : pyInt a with _ | x
      · simp [hpa]
      rcases hpb : pyInt b with _ | y
      · simp [hpa, hpb]
      rcases hpc : pyInt c with _ | z
      · simp [hpa, hpb, hpc]
      simp only [hpa, hpb, hpc]
      have hx := pyInt_nonneg ha hpa
      have hy := pyInt_nonneg hb hpb
      have hz := pyInt_nonneg hcc hpc
      refine add_nonneg (add_nonneg (mul_nonneg ?_ (by norm_num)) ?_)
        (div_nonneg ?_ (by norm_num))
      · exact_mod_cast hx
      · exact_mod_cast hy
      · exact_mod_cast hz
    next => exact le_refl 0
  | num q => exact le_refl 0
  | na => exact le_refl 0

/-- Witness for C5 amended: `"1:30"` has minus-free parts, so its
1.5-minute value is nonnegative. -/
theorem time_to_minutes_nonneg_witness :
    (0 : ℚ) ≤ time_to_minutes (PyVal.str "1:30") :=
  time_to_minutes_nonneg (PyVal.str "1:30")
    (fun s hs => by
      injection hs with h2
      subst h2
      decide)

/-- C7: the parser is total (a function into `ℚ` — the `except` branch
absorbs every `int` failure), and returns `0` whenever the input is not
a string, or its colon-split has a shape other than 2 or 3 parts, or
some part does not parse as an integer. -/
theorem time_to_minutes_fallback (v : PyVal) :
    (∀ s, v = PyVal.str s →
        (((splitCh ':' s.data).length ≠ 2 ∧ (splitCh ':' s.data).length ≠ 3)
            ∨ (∃ p ∈ splitCh ':' s.data, pyInt p = none)) →
          time_to_minutes v = 0)
      ∧ ((∀ s, v ≠ PyVal.str s) → time_to_minutes v = 0) := by
  constructor
  · rintro s rfl hbad
    simp only [time_to_minutes]
    split
    next a b heq =>
      rcases hbad with ⟨h2, _⟩ | ⟨p, hp, hnone⟩
      · rw [heq] at h2
        simp at h2
      · rw [heq] at hp
        simp only [List.mem_cons, List.not_mem_nil, or_false] at hp
        rcases hp with rfl | rfl
        · simp [hnone]
        · rcases h3 : pyInt a with _ | x <;> simp [h3, hnone]
    next a b c heq =>
      rcases hbad with ⟨_, h3⟩ | ⟨p, hp, hnone⟩
      · rw [heq] at h3
        simp at h3
      · rw [heq] at hp
        simp only [List.mem_cons, List.not_mem_nil, or_false] at hp
        rcases hp with rfl | rfl | rfl
        · simp [hnone]
        · rcases h4 : pyInt a with _ | x <;> simp [h4, hnone]
        · rcases h4 : pyInt a with _ | x <;> rcases h5 : pyInt b with _ | y <;>
            simp [h4, h5, hnone]
    next => rfl
  · intro hns
    cases v with
    | str s => exact absurd rfl (hns s)
    | num q => rfl
    | na => rfl

/-- Witness for C7: a four-part string and a non-string both fall back
to `0`. -/
theorem time_to_minutes_fallback_witness :
    time_to_minutes (PyVal.str "1:2:3:4") = 0 ∧ time_to_minutes PyVal.na = 0 :=
  ⟨(time_to_minutes_fallback (PyVal.str "1:2:3:4")).1 "1:2:3:4" rfl
      (Or.inl (by decide)),
    (time_to_minutes_fallback PyVal.na).2 (fun s h => PyVal.noConfusion h)⟩

end EmpTrack
